import Mathlib

/-!
Shallow embedding of the quiz socket server (`src/server.js`).

The server keeps two process-wide JavaScript `Map`s:
`quizSessions : roomId → session object` (the Session Store) and
`roomParticipants : roomId → (socketId → participant record)` (the Room
Registry).  In addition, socket.io itself tracks which socket.io rooms each
socket is currently in; `io.to(roomId)` delivers only to sockets whose
socket.io room set contains `roomId`.  We embed all three, together with the
five socket event handlers (`join-room`, `start-quiz`, `submit-answer`,
`next-question`, `end-quiz`) and the `disconnect` handler, as a step function
from a server state and an inbound event to a new state plus the list of
emitted outbound events.

JavaScript `Map`s are insertion ordered, `set` on an existing key updates the
value in place keeping the key position, and object literals
`{...spread, k: v}` behave the same way; we model both as association lists
with exactly those operations.
-/

namespace QuizServer

/-- JSON-like values appearing in quiz payloads, sessions and answers. -/
inductive Value where
  | str : String → Value
  | num : Int → Value
  | time : Nat → Value
  | boolean : Bool → Value
  deriving DecidableEq, Repr

/-- A JavaScript object / `Map` with string keys: an insertion-ordered
association list. -/
abbrev Obj := List (String × Value)

/-- The participant record stored by the `join-room` handler
(`{userId, userName, socketId, joinedAt}`, src/server.js lines 78–83). -/
structure Participant where
  userId : String
  userName : String
  socketId : String
  joinedAt : Nat
  deriving DecidableEq, Repr

/-- `Map.prototype.get`. -/
def mapGet {α : Type} : List (String × α) → String → Option α
  | [], _ => none
  | (k', v) :: rest, k => if k' = k then some v else mapGet rest k

/-- `Map.prototype.set`: updates the value in place when the key is present
(keeping its position), otherwise appends the new binding at the end. -/
def mapSet {α : Type} : List (String × α) → String → α → List (String × α)
  | [], k, v => [(k, v)]
  | (k', v') :: rest, k, v =>
    if k' = k then (k, v) :: rest else (k', v') :: mapSet rest k v

/-- `Map.prototype.delete` (removes every binding of the key; on a real map
there is at most one). -/
def mapDelete {α : Type} : List (String × α) → String → List (String × α)
  | [], _ => []
  | (k', v) :: rest, k =>
    if k' = k then mapDelete rest k else (k', v) :: mapDelete rest k

/-- `Map.prototype.has`. -/
def mapHas {α : Type} (m : List (String × α)) (k : String) : Bool :=
  (mapGet m k).isSome

/-- The keys of a map, in insertion order. -/
def keysOf {α : Type} : List (String × α) → List String
  | [] => []
  | p :: rest => p.1 :: keysOf rest

/-- The full server state: the Session Store, the Room Registry, and the
socket.io room layer (for each socketId, the socket.io rooms it is in,
excluding its private self-room which the handlers always skip). -/
structure ServerState where
  quizSessions : List (String × Obj)
  roomParticipants : List (String × List (String × Participant))
  socketRooms : List (String × List String)
  deriving DecidableEq, Repr

/-- The state at server start: all maps empty. -/
def initState : ServerState := ⟨[], [], []⟩

/-- Where an outbound event is sent: `io.to(roomId)`, `socket.to(roomId)`
(room minus the sender), or `socket.emit` (sender only). -/
inductive Target where
  | room : String → Target
  | roomExceptSender : String → String → Target
  | sock : String → Target
  deriving DecidableEq, Repr

/-- The outbound events the dispatcher emits (src/server.js). -/
inductive OutEvent where
  | participantsUpdate : List Participant → Nat → OutEvent
  | roomJoined : String → Nat → List Participant → OutEvent
  | quizStarted : String → Obj → OutEvent
  | answerReceived : Option Value → Option Value → Option Value → Nat → OutEvent
  | questionChanged : String → Int → Nat → OutEvent
  | quizEnded : String → Option Value → Nat → OutEvent
  | errorMsg : String → OutEvent
  deriving DecidableEq, Repr

/-- One emitted outbound event with its target. -/
structure Emit where
  target : Target
  event : OutEvent
  deriving DecidableEq, Repr

/-- The inbound typed events.  For `join-room` and `start-quiz` the handler
validates its fields, so those are carried as `Option String` (`none` =
absent); the other handlers never validate, so their fields are carried
directly.  `now` is the value `new Date()` takes while the handler runs. -/
inductive InEvent where
  | joinRoom : String → Option String → Option String → Option String → Nat → InEvent
  | startQuiz : String → Option String → Obj → Nat → InEvent
  | submitAnswer : String → String → Option Value → Option Value → Option Value → Nat → InEvent
  | nextQuestion : String → String → Int → Nat → InEvent
  | endQuiz : String → String → Option Value → Nat → InEvent
  | disconnect : String → InEvent
  deriving DecidableEq, Repr

/-- JavaScript falsiness of an optional string (`!x` is true exactly when the
field is absent or the empty string). -/
def isFalsy : Option String → Bool
  | none => true
  | some s => decide (s = "")

/-- The Room Registry after `if (!roomParticipants.has(roomId))
roomParticipants.set(roomId, new Map())` (src/server.js lines 74–76). -/
def joinRp0 (st : ServerState) (roomId : String) :
    List (String × List (String × Participant)) :=
  if mapHas st.roomParticipants roomId then st.roomParticipants
  else mapSet st.roomParticipants roomId []

/-- The participant map for `roomId` right before the sender is inserted. -/
def joinPm0 (st : ServerState) (roomId : String) : List (String × Participant) :=
  (mapGet (joinRp0 st roomId) roomId).getD []

/-- The participant record the join handler stores; a falsy `userName` is
replaced by the default of the string "User " followed by the userId
(src/server.js lines 78–83). -/
def joinRecord (sid userId : String) (userName? : Option String) (now : Nat) :
    Participant :=
  ⟨userId, if isFalsy userName? then "User " ++ userId else userName?.getD "", sid, now⟩

/-- The participant map for `roomId` after the sender is inserted. -/
def joinPm1 (st : ServerState) (sid roomId userId : String)
    (userName? : Option String) (now : Nat) : List (String × Participant) :=
  mapSet (joinPm0 st roomId) sid (joinRecord sid userId userName? now)

/-- The `join-room` handler (src/server.js lines 54–107).  On valid input the
socket leaves all its socket.io rooms and joins `roomId`, the participant
record is stored under `roomId` in the Room Registry, and the updated list is
broadcast to the room plus a confirmation to the sender. -/
def handleJoin (st : ServerState) (sid : String)
    (roomId? userId? userName? : Option String) (now : Nat) :
    ServerState × List Emit :=
  if isFalsy roomId? || isFalsy userId? then
    (st, [⟨Target.sock sid, OutEvent.errorMsg "Room ID and User ID are required"⟩])
  else
    let roomId := roomId?.getD ""
    let userId := userId?.getD ""
    let pm1 := joinPm1 st sid roomId userId userName? now
    let participants := pm1.map Prod.snd
    ({ st with roomParticipants := mapSet (joinRp0 st roomId) roomId pm1,
               socketRooms := mapSet st.socketRooms sid [roomId] },
     [⟨Target.room roomId, OutEvent.participantsUpdate participants participants.length⟩,
      ⟨Target.sock sid, OutEvent.roomJoined roomId participants.length participants⟩])

/-- The session object built by `start-quiz`:
`{...quizData, startedAt: new Date(), currentQuestion: 0}`
(src/server.js lines 120–124). -/
def mkSession (quizData : Obj) (now : Nat) : Obj :=
  mapSet (mapSet quizData "startedAt" (Value.time now)) "currentQuestion" (Value.num 0)

/-- The `start-quiz` handler (src/server.js lines 110–138). -/
def handleStart (st : ServerState) (sid : String) (roomId? : Option String)
    (quizData : Obj) (now : Nat) : ServerState × List Emit :=
  if isFalsy roomId? then
    (st, [⟨Target.sock sid, OutEvent.errorMsg "Room ID is required"⟩])
  else
    let roomId := roomId?.getD ""
    let qs := mapSet st.quizSessions roomId (mkSession quizData now)
    ({ st with quizSessions := qs },
     [⟨Target.room roomId, OutEvent.quizStarted roomId ((mapGet qs roomId).getD [])⟩])

/-- The `next-question` handler (src/server.js lines 162–184): updates
`currentQuestion` on the session if one exists, then broadcasts
`question-changed` regardless. -/
def handleNext (st : ServerState) (roomId : String) (questionIndex : Int)
    (now : Nat) : ServerState × List Emit :=
  let qs :=
    match mapGet st.quizSessions roomId with
    | some session =>
      mapSet st.quizSessions roomId (mapSet session "currentQuestion" (Value.num questionIndex))
    | none => st.quizSessions
  ({ st with quizSessions := qs },
   [⟨Target.room roomId, OutEvent.questionChanged roomId questionIndex now⟩])

/-- The `end-quiz` handler (src/server.js lines 187–206): broadcasts
`quiz-ended`, then deletes the session. -/
def handleEnd (st : ServerState) (roomId : String) (results : Option Value)
    (now : Nat) : ServerState × List Emit :=
  ({ st with quizSessions := mapDelete st.quizSessions roomId },
   [⟨Target.room roomId, OutEvent.quizEnded roomId results now⟩])

/-- The loop body of the `disconnect` handler (src/server.js lines 213–232):
for each Room Registry entry containing the socket, delete the socket,
broadcast the updated list (before checking emptiness), and when the room
became empty delete the room entry and its session. -/
def disconnectScan (sid : String) :
    List (String × List (String × Participant)) → List (String × Obj) →
    List (String × List (String × Participant)) × List (String × Obj) × List Emit
  | [], qs => ([], qs, [])
  | (roomId, pm) :: rest, qs =>
    if mapHas pm sid then
      let pm1 := mapDelete pm sid
      let e : Emit :=
        ⟨Target.room roomId, OutEvent.participantsUpdate (pm1.map Prod.snd) (pm1.map Prod.snd).length⟩
      if pm1.length = 0 then
        let r := disconnectScan sid rest (mapDelete qs roomId)
        (r.1, r.2.1, e :: r.2.2)
      else
        let r := disconnectScan sid rest qs
        ((roomId, pm1) :: r.1, r.2.1, e :: r.2.2)
    else
      let r := disconnectScan sid rest qs
      ((roomId, pm) :: r.1, r.2.1, r.2.2)

/-- The `disconnect` handler (src/server.js lines 209–233).  socket.io has
already removed the socket from all socket.io rooms when the handler runs;
the handler then scans the Room Registry. -/
def handleDisconnect (st : ServerState) (sid : String) : ServerState × List Emit :=
  let sr := mapDelete st.socketRooms sid
  let r := disconnectScan sid st.roomParticipants st.quizSessions
  (⟨r.2.1, r.1, sr⟩, r.2.2)

/-- One dispatcher step: process one inbound event, returning the new state
and the emitted outbound events in order. -/
def step (st : ServerState) : InEvent → ServerState × List Emit
  | .joinRoom sid r u un now => handleJoin st sid r u un now
  | .startQuiz sid r qd now => handleStart st sid r qd now
  | .submitAnswer sid r qid ans uid now =>
    (st, [⟨Target.roomExceptSender r sid, OutEvent.answerReceived uid qid ans now⟩])
  | .nextQuestion _ r qi now => handleNext st r qi now
  | .endQuiz _ r res now => handleEnd st r res now
  | .disconnect sid => handleDisconnect st sid

/-- The state reached after processing a sequence of events from the start
state. -/
def run (es : List InEvent) : ServerState :=
  es.foldl (fun st e => (step st e).1) initState

/-- The room (if any) a target delivers into. -/
def targetRoom : Target → Option String
  | .room r => some r
  | .roomExceptSender r _ => some r
  | .sock _ => none

/-- Removal of a key from a key list, mirroring what `mapDelete` does to
`keysOf`. -/
def removeAll : List String → String → List String
  | [], _ => []
  | s :: rest, k => if s = k then removeAll rest k else s :: removeAll rest k

/-- Whether a `join-room` payload passes the handler validation. -/
def validJoin (roomId? userId? : Option String) : Bool :=
  !(isFalsy roomId? || isFalsy userId?)

/-- The socketIds listed in room `R`'s Room Registry entry (empty when the
room is absent), in list order. -/
def roomKeys (st : ServerState) (R : String) : List String :=
  keysOf ((mapGet st.roomParticipants R).getD [])

/-- Specification-side description of one event's effect on room `R`'s
participant-key list, written from the spec's words: a (valid) join of a
connection appends it unless it is already listed (in which case its record
is updated in place), a disconnect removes it, and nothing else changes the
list. -/
def specKeysStep (R : String) (ks : List String) : InEvent → List String
  | .joinRoom sid r? u? _ _ =>
    if validJoin r? u? = true ∧ r?.getD "" = R then
      (if sid ∈ ks then ks else ks ++ [sid])
    else ks
  | .disconnect sid => removeAll ks sid
  | _ => ks

/-- Specification-side participant-key list of room `R` after a trace. -/
def specKeys (es : List InEvent) (R : String) : List String :=
  es.foldl (specKeysStep R) []

/-- Membership check used as the `disconnect`-is-a-no-op hypothesis: the
connection appears in no room's participant map. -/
def inNoRoom (st : ServerState) (c : String) : Bool :=
  st.roomParticipants.all fun p => !(mapHas p.2 c)

/-- Well-formedness: all three maps have pairwise-distinct keys, as a real
JavaScript `Map` always does, and so do the per-room participant maps. -/
structure WF (st : ServerState) : Prop where
  rp : (keysOf st.roomParticipants).Nodup
  qs : (keysOf st.quizSessions).Nodup
  sr : (keysOf st.socketRooms).Nodup
  inner : ∀ p ∈ st.roomParticipants, (keysOf p.2).Nodup

/-- The socket.io layer never gets ahead of the Room Registry: every
socket.io room a socket is in has that socket registered in its participant
map. -/
def Inv (st : ServerState) : Prop :=
  ∀ s rs, mapGet st.socketRooms s = some rs →
    ∀ r ∈ rs, mapHas ((mapGet st.roomParticipants r).getD []) s = true

/-! ### Basic algebra of the map operations -/

theorem keysOf_eq_map {α : Type} (m : List (String × α)) :
    keysOf m = m.map Prod.fst := by
  induction m with
  | nil => rfl
  | cons p rest ih => simp [keysOf, ih]

theorem mapGet_mapSet_self {α : Type} (m : List (String × α)) (k : String) (v : α) :
    mapGet (mapSet m k v) k = some v := by
  induction m with
  | nil => simp [mapSet, mapGet]
  | cons p rest ih =>
    obtain ⟨k', v'⟩ := p
    by_cases h : k' = k <;> simp [mapSet, mapGet, h, ih]

theorem mapGet_mapSet_ne {α : Type} (m : List (String × α)) {k k' : String} (v : α)
    (h : k' ≠ k) : mapGet (mapSet m k v) k' = mapGet m k' := by
  induction m with
  | nil => simp [mapSet, mapGet, Ne.symm h]
  | cons p rest ih =>
    obtain ⟨k0, v0⟩ := p
    by_cases h0 : k0 = k
    · subst h0
      simp [mapSet, mapGet, Ne.symm h]
    · by_cases h1 : k0 = k' <;> simp [mapSet, mapGet, h0, h1, h, ih]

theorem mapGet_mapDelete_self {α : Type} (m : List (String × α)) (k : String) :
    mapGet (mapDelete m k) k = none := by
  induction m with
  | nil => simp [mapDelete, mapGet]
  | cons p rest ih =>
    obtain ⟨k', v⟩ := p
    by_cases h : k' = k <;> simp [mapDelete, mapGet, h, ih]

theorem mapGet_mapDelete_ne {α : Type} (m : List (String × α)) {k k' : String}
    (h : k' ≠ k) : mapGet (mapDelete m k) k' = mapGet m k' := by
  induction m with
  | nil => simp [mapDelete]
  | cons p rest ih =>
    obtain ⟨k0, v0⟩ := p
    by_cases h0 : k0 = k
    · subst h0
      simp [mapDelete, mapGet, Ne.symm h, ih]
    · by_cases h1 : k0 = k' <;> simp [mapDelete, mapGet, h0, h1, h, ih]

theorem mapHas_iff_mem_keys {α : Type} (m : List (String × α)) (k : String) :
    mapHas m k = true ↔ k ∈ keysOf m := by
  induction m with
  | nil => simp [mapHas, mapGet, keysOf]
  | cons p rest ih =>
    obtain ⟨k', v⟩ := p
    by_cases h : k' = k
    · simp [mapHas, mapGet, keysOf, h]
    · have h1 : mapHas ((k', v) :: rest) k = mapHas rest k := by
        simp [mapHas, mapGet, h]
      rw [h1, keysOf, List.mem_cons, ih]
      constructor
      · exact fun hh => Or.inr hh
      · rintro (hh | hh)
        · exact absurd hh.symm h
        · exact hh

theorem mapGet_eq_none_iff {α : Type} (m : List (String × α)) (k : String) :
    mapGet m k = none ↔ k ∉ keysOf m := by
  rw [← mapHas_iff_mem_keys]
  unfold mapHas
  cases mapGet m k <;> simp

theorem mapGet_mem {α : Type} {m : List (String × α)} {k : String} {v : α}
    (h : mapGet m k = some v) : (k, v) ∈ m := by
  induction m with
  | nil => simp [mapGet] at h
  | cons p rest ih =>
    obtain ⟨k', v'⟩ := p
    by_cases h0 : k' = k
    · subst h0
      simp [mapGet] at h
      simp [h]
    · simp only [mapGet, h0, if_false] at h
      exact List.mem_cons_of_mem _ (ih h)

theorem mapGet_of_mem_nodup {α : Type} {m : List (String × α)} {k : String} {v : α}
    (hnd : (keysOf m).Nodup) (h : (k, v) ∈ m) : mapGet m k = some v := by
  induction m with
  | nil => simp at h
  | cons p rest ih =>
    obtain ⟨k', v'⟩ := p
    rw [keysOf, List.nodup_cons] at hnd
    rcases List.mem_cons.1 h with h1 | h1
    · have hk : k = k' := congrArg Prod.fst h1
      have hv : v = v' := congrArg Prod.snd h1
      subst hk; subst hv
      simp [mapGet]
    · have hk : k' ≠ k := by
        rintro rfl
        have : k' ∈ keysOf rest := by
          rw [keysOf_eq_map]
          exact List.mem_map.2 ⟨(k', v), h1, rfl⟩
        exact hnd.1 this
      rw [mapGet, if_neg hk]
      exact ih hnd.2 h1

theorem keys_mapSet_of_has {α : Type} {m : List (String × α)} {k : String} (v : α)
    (h : mapHas m k = true) : keysOf (mapSet m k v) = keysOf m := by
  induction m with
  | nil => simp [mapHas, mapGet] at h
  | cons p rest ih =>
    obtain ⟨k', v'⟩ := p
    by_cases h0 : k' = k
    · simp [mapSet, keysOf, h0]
    · have h1 : mapHas rest k = true := by
        simpa [mapHas, mapGet, h0] using h
      simp [mapSet, keysOf, h0, ih h1]

theorem keys_mapSet_of_not_has {α : Type} {m : List (String × α)} {k : String} (v : α)
    (h : mapHas m k = false) : keysOf (mapSet m k v) = keysOf m ++ [k] := by
  induction m with
  | nil => simp [mapSet, keysOf]
  | cons p rest ih =>
    obtain ⟨k', v'⟩ := p
    by_cases h0 : k' = k
    · simp [mapHas, mapGet, h0] at h
    · have h1 : mapHas rest k = false := by
        simpa [mapHas, mapGet, h0] using h
      simp [mapSet, keysOf, h0, ih h1]

theorem length_mapSet_of_has {α : Type} {m : List (String × α)} {k : String} (v : α)
    (h : mapHas m k = true) : (mapSet m k v).length = m.length := by
  have h1 := congrArg List.length (keys_mapSet_of_has v h)
  rw [keysOf_eq_map, keysOf_eq_map] at h1
  simpa using h1

theorem mapHas_mapSet_self {α : Type} (m : List (String × α)) (k : String) (v : α) :
    mapHas (mapSet m k v) k = true := by
  simp [mapHas, mapGet_mapSet_self]

theorem mapHas_mapSet_of_has {α : Type} {m : List (String × α)} {k : String}
    (k' : String) (v : α) (h : mapHas m k' = true) :
    mapHas (mapSet m k v) k' = true := by
  by_cases h0 : k' = k
  · subst h0; exact mapHas_mapSet_self m k' v
  · simpa [mapHas, mapGet_mapSet_ne m v h0] using h

theorem mapHas_mapDelete_ne {α : Type} (m : List (String × α)) {k k' : String}
    (h : k' ≠ k) : mapHas (mapDelete m k) k' = mapHas m k' := by
  simp [mapHas, mapGet_mapDelete_ne m h]

theorem mapHas_mapDelete_self {α : Type} (m : List (String × α)) (k : String) :
    mapHas (mapDelete m k) k = false := by
  simp [mapHas, mapGet_mapDelete_self]

theorem mapDelete_sublist {α : Type} (m : List (String × α)) (k : String) :
    List.Sublist (mapDelete m k) m := by
  induction m with
  | nil => simp [mapDelete]
  | cons p rest ih =>
    obtain ⟨k', v⟩ := p
    by_cases h : k' = k
    · rw [mapDelete, if_pos h]
      exact ih.trans (List.sublist_cons_self _ _)
    · rw [mapDelete, if_neg h]
      exact ih.cons₂ _

theorem mem_of_mem_mapDelete {α : Type} {m : List (String × α)} {k : String}
    {p : String × α} (h : p ∈ mapDelete m k) : p ∈ m :=
  (mapDelete_sublist m k).subset h

theorem mapDelete_eq_nil_iff {α : Type} (m : List (String × α)) (k : String) :
    mapDelete m k = [] ↔ ∀ p ∈ m, p.1 = k := by
  induction m with
  | nil => simp [mapDelete]
  | cons p rest ih =>
    obtain ⟨k', v⟩ := p
    by_cases h : k' = k <;> simp [mapDelete, h, ih]

theorem mem_mapSet {α : Type} {m : List (String × α)} {k : String} {v : α}
    {p : String × α} (h : p ∈ mapSet m k v) : p ∈ m ∨ p = (k, v) := by
  induction m with
  | nil => simpa [mapSet] using h
  | cons q rest ih =>
    obtain ⟨k', v'⟩ := q
    by_cases h0 : k' = k
    · rw [mapSet, if_pos h0] at h
      rcases List.mem_cons.1 h with h1 | h1
      · exact Or.inr h1
      · exact Or.inl (List.mem_cons_of_mem _ h1)
    · rw [mapSet, if_neg h0] at h
      rcases List.mem_cons.1 h with h1 | h1
      · exact Or.inl (by simp [h1])
      · rcases ih h1 with h2 | h2
        · exact Or.inl (List.mem_cons_of_mem _ h2)
        · exact Or.inr h2

theorem nodup_keys_mapSet {α : Type} {m : List (String × α)} (k : String) (v : α)
    (h : (keysOf m).Nodup) : (keysOf (mapSet m k v)).Nodup := by
  cases hh : mapHas m k
  · rw [keys_mapSet_of_not_has v hh]
    have hk : k ∉ keysOf m := fun hmem => by
      simp [(mapHas_iff_mem_keys m k).2 hmem] at hh
    simp [List.nodup_append, h, hk]
  · rw [keys_mapSet_of_has v hh]
    exact h

theorem keysOf_sublist_of_sublist {α : Type} {m m' : List (String × α)}
    (h : List.Sublist m' m) : List.Sublist (keysOf m') (keysOf m) := by
  rw [keysOf_eq_map, keysOf_eq_map]
  exact h.map Prod.fst

theorem nodup_keys_mapDelete {α : Type} {m : List (String × α)} (k : String)
    (h : (keysOf m).Nodup) : (keysOf (mapDelete m k)).Nodup :=
  List.Nodup.sublist (keysOf_sublist_of_sublist (mapDelete_sublist m k)) h

theorem keys_mapDelete {α : Type} (m : List (String × α)) (k : String) :
    keysOf (mapDelete m k) = removeAll (keysOf m) k := by
  induction m with
  | nil => rfl
  | cons p rest ih =>
    obtain ⟨k', v⟩ := p
    by_cases h : k' = k <;> simp [mapDelete, keysOf, removeAll, h, ih]

theorem removeAll_of_not_mem {ks : List String} {k : String} (h : k ∉ ks) :
    removeAll ks k = ks := by
  induction ks with
  | nil => rfl
  | cons s rest ih =>
    rw [List.mem_cons] at h
    push_neg at h
    rw [removeAll, if_neg (Ne.symm h.1), ih h.2]

theorem removeAll_eq_nil {ks : List String} {k : String} (h : ∀ s ∈ ks, s = k) :
    removeAll ks k = [] := by
  induction ks with
  | nil => rfl
  | cons s rest ih =>
    rw [removeAll, if_pos (h s (by simp))]
    exact ih fun x hx => h x (by simp [hx])

/-! ### Behaviour of the disconnect scan -/

theorem disconnectScan_nil (sid : String) (qs : List (String × Obj)) :
    disconnectScan sid [] qs = ([], qs, []) := rfl

theorem disconnectScan_cons_has_empty {sid roomId : String}
    {pm : List (String × Participant)} {rest : List (String × List (String × Participant))}
    {qs : List (String × Obj)} (h : mapHas pm sid = true)
    (h2 : (mapDelete pm sid).length = 0) :
    disconnectScan sid ((roomId, pm) :: rest) qs =
      ((disconnectScan sid rest (mapDelete qs roomId)).1,
       (disconnectScan sid rest (mapDelete qs roomId)).2.1,
       ⟨Target.room roomId,
         OutEvent.participantsUpdate ((mapDelete pm sid).map Prod.snd)
           ((mapDelete pm sid).map Prod.snd).length⟩ ::
         (disconnectScan sid rest (mapDelete qs roomId)).2.2) := by
  simp [disconnectScan, h, h2]

theorem disconnectScan_cons_has_keep {sid roomId : String}
    {pm : List (String × Participant)} {rest : List (String × List (String × Participant))}
    {qs : List (String × Obj)} (h : mapHas pm sid = true)
    (h2 : ¬ (mapDelete pm sid).length = 0) :
    disconnectScan sid ((roomId, pm) :: rest) qs =
      ((roomId, mapDelete pm sid) :: (disconnectScan sid rest qs).1,
       (disconnectScan sid rest qs).2.1,
       ⟨Target.room roomId,
         OutEvent.participantsUpdate ((mapDelete pm sid).map Prod.snd)
           ((mapDelete pm sid).map Prod.snd).length⟩ ::
         (disconnectScan sid rest qs).2.2) := by
  simp [disconnectScan, h, h2]

theorem disconnectScan_cons_not_has {sid roomId : String}
    {pm : List (String × Participant)} {rest : List (String × List (String × Participant))}
    {qs : List (String × Obj)} (h : mapHas pm sid = false) :
    disconnectScan sid ((roomId, pm) :: rest) qs =
      ((roomId, pm) :: (disconnectScan sid rest qs).1,
       (disconnectScan sid rest qs).2.1,
       (disconnectScan sid rest qs).2.2) := by
  simp [disconnectScan, h]

theorem disconnectScan_emits (sid : String) :
    ∀ (rp : List (String × List (String × Participant))) (qs : List (String × Obj)),
    (disconnectScan sid rp qs).2.2 = rp.filterMap fun p =>
      if mapHas p.2 sid then
        some ⟨Target.room p.1,
          OutEvent.participantsUpdate ((mapDelete p.2 sid).map Prod.snd)
            ((mapDelete p.2 sid).map Prod.snd).length⟩
      else none := by
  intro rp
  induction rp with
  | nil => intro qs; simp [disconnectScan_nil]
  | cons p rest ih =>
    intro qs
    obtain ⟨roomId, pm⟩ := p
    cases h : mapHas pm sid with
    | true =>
      by_cases h2 : (mapDelete pm sid).length = 0
      · rw [disconnectScan_cons_has_empty h h2]
        simp [h, ih]
      · rw [disconnectScan_cons_has_keep h h2]
        simp [h, ih]
    | false =>
      rw [disconnectScan_cons_not_has h]
      simp [h, ih]

theorem disconnectScan_rp_keys_sublist (sid : String) :
    ∀ (rp : List (String × List (String × Participant))) (qs : List (String × Obj)),
    List.Sublist (keysOf (disconnectScan sid rp qs).1) (keysOf rp) := by
  intro rp
  induction rp with
  | nil => intro qs; simp [disconnectScan_nil, keysOf]
  | cons p rest ih =>
    intro qs
    obtain ⟨roomId, pm⟩ := p
    cases h : mapHas pm sid with
    | true =>
      by_cases h2 : (mapDelete pm sid).length = 0
      · rw [disconnectScan_cons_has_empty h h2]
        exact (ih _).trans (List.sublist_cons_self _ _)
      · rw [disconnectScan_cons_has_keep h h2]
        exact (ih _).cons₂ _
    | false =>
      rw [disconnectScan_cons_not_has h]
      exact (ih _).cons₂ _

theorem disconnectScan_qs_sublist (sid : String) :
    ∀ (rp : List (String × List (String × Participant))) (qs : List (String × Obj)),
    List.Sublist (disconnectScan sid rp qs).2.1 qs := by
  intro rp
  induction rp with
  | nil => intro qs; simp [disconnectScan_nil]
  | cons p rest ih =>
    intro qs
    obtain ⟨roomId, pm⟩ := p
    cases h : mapHas pm sid with
    | true =>
      by_cases h2 : (mapDelete pm sid).length = 0
      · rw [disconnectScan_cons_has_empty h h2]
        exact (ih _).trans (mapDelete_sublist qs roomId)
      · rw [disconnectScan_cons_has_keep h h2]
        exact ih _
    | false =>
      rw [disconnectScan_cons_not_has h]
      exact ih _

theorem mem_disconnectScan_rp {sid : String} :
    ∀ {rp : List (String × List (String × Participant))} {qs : List (String × Obj)}
    {p : String × List (String × Participant)}, p ∈ (disconnectScan sid rp qs).1 →
    p ∈ rp ∨ ∃ q ∈ rp, p = (q.1, mapDelete q.2 sid) := by
  intro rp
  induction rp with
  | nil => intro qs p h; simp [disconnectScan_nil] at h
  | cons q rest ih =>
    intro qs p h
    obtain ⟨roomId, pm⟩ := q
    cases h0 : mapHas pm sid with
    | true =>
      by_cases h2 : (mapDelete pm sid).length = 0
      · rw [disconnectScan_cons_has_empty h0 h2] at h
        rcases ih h with h1 | ⟨q1, hq1, rfl⟩
        · exact Or.inl (List.mem_cons_of_mem _ h1)
        · exact Or.inr ⟨q1, List.mem_cons_of_mem _ hq1, rfl⟩
      · rw [disconnectScan_cons_has_keep h0 h2] at h
        rcases List.mem_cons.1 h with h1 | h1
        · exact Or.inr ⟨(roomId, pm), by simp, by simp [h1]⟩
        · rcases ih h1 with h3 | ⟨q1, hq1, rfl⟩
          · exact Or.inl (List.mem_cons_of_mem _ h3)
          · exact Or.inr ⟨q1, List.mem_cons_of_mem _ hq1, rfl⟩
    | false =>
      rw [disconnectScan_cons_not_has h0] at h
      rcases List.mem_cons.1 h with h1 | h1
      · exact Or.inl (by simp [h1])
      · rcases ih h1 with h3 | ⟨q1, hq1, rfl⟩
        · exact Or.inl (List.mem_cons_of_mem _ h3)
        · exact Or.inr ⟨q1, List.mem_cons_of_mem _ hq1, rfl⟩

theorem disconnectScan_rp_get (sid r : String) :
    ∀ (rp : List (String × List (String × Participant))) (qs : List (String × Obj)),
    (keysOf rp).Nodup →
    mapGet (disconnectScan sid rp qs).1 r =
      match mapGet rp r with
      | none => none
      | some pm =>
        if mapHas pm sid then
          (if (mapDelete pm sid).length = 0 then none else some (mapDelete pm sid))
        else some pm := by
  intro rp
  induction rp with
  | nil => intro qs _; simp [disconnectScan_nil, mapGet]
  | cons p rest ih =>
    intro qs hnd
    obtain ⟨roomId, pm⟩ := p
    rw [keysOf, List.nodup_cons] at hnd
    by_cases hr : roomId = r
    · subst hr
      cases h : mapHas pm sid with
      | true =>
        by_cases h2 : (mapDelete pm sid).length = 0
        · rw [disconnectScan_cons_has_empty h h2]
          have h1 : roomId ∉ keysOf (disconnectScan sid rest (mapDelete qs roomId)).1 :=
            fun hmem => hnd.1 ((disconnectScan_rp_keys_sublist sid rest _).subset hmem)
          rw [(mapGet_eq_none_iff _ _).2 h1]
          simp [mapGet, h, h2]
        · rw [disconnectScan_cons_has_keep h h2]
          simp [mapGet, h, h2]
      | false =>
        rw [disconnectScan_cons_not_has h]
        simp [mapGet, h]
    · have hrest : mapGet ((roomId, pm) :: rest) r = mapGet rest r := by
        rw [mapGet, if_neg hr]
      rw [hrest]
      cases h : mapHas pm sid with
      | true =>
        by_cases h2 : (mapDelete pm sid).length = 0
        · rw [disconnectScan_cons_has_empty h h2]
          exact ih _ hnd.2
        · rw [disconnectScan_cons_has_keep h h2, mapGet, if_neg hr]
          exact ih _ hnd.2
      | false =>
        rw [disconnectScan_cons_not_has h, mapGet, if_neg hr]
        exact ih _ hnd.2

theorem disconnectScan_qs_none (sid r : String) :
    ∀ (rp : List (String × List (String × Participant))) (qs : List (String × Obj)),
    mapGet qs r = none → mapGet (disconnectScan sid rp qs).2.1 r = none := by
  intro rp
  induction rp with
  | nil => intro qs h; simpa [disconnectScan_nil] using h
  | cons p rest ih =>
    intro qs h
    obtain ⟨roomId, pm⟩ := p
    cases h0 : mapHas pm sid with
    | true =>
      by_cases h2 : (mapDelete pm sid).length = 0
      · rw [disconnectScan_cons_has_empty h0 h2]
        apply ih
        by_cases hk : roomId = r
        · subst hk; exact mapGet_mapDelete_self qs roomId
        · rw [mapGet_mapDelete_ne qs (Ne.symm hk)]; exact h
      · rw [disconnectScan_cons_has_keep h0 h2]
        exact ih _ h
    | false =>
      rw [disconnectScan_cons_not_has h0]
      exact ih _ h

theorem disconnectScan_qs_deleted (sid r : String) :
    ∀ (rp : List (String × List (String × Participant))) (qs : List (String × Obj))
    (pm : List (String × Participant)), mapGet rp r = some pm →
    mapHas pm sid = true → (mapDelete pm sid).length = 0 →
    mapGet (disconnectScan sid rp qs).2.1 r = none := by
  intro rp
  induction rp with
  | nil => intro qs pm h; simp [mapGet] at h
  | cons p rest ih =>
    intro qs pm hget hhas hlen
    obtain ⟨roomId, pm0⟩ := p
    by_cases hr : roomId = r
    · subst hr
      rw [mapGet, if_pos rfl] at hget
      cases hget
      rw [disconnectScan_cons_has_empty hhas hlen]
      exact disconnectScan_qs_none sid roomId rest _ (mapGet_mapDelete_self qs roomId)
    · rw [mapGet, if_neg hr] at hget
      cases h0 : mapHas pm0 sid with
      | true =>
        by_cases h2 : (mapDelete pm0 sid).length = 0
        · rw [disconnectScan_cons_has_empty h0 h2]
          exact ih _ pm hget hhas hlen
        · rw [disconnectScan_cons_has_keep h0 h2]
          exact ih _ pm hget hhas hlen
      | false =>
        rw [disconnectScan_cons_not_has h0]
        exact ih _ pm hget hhas hlen

theorem disconnectScan_frame (sid : String) :
    ∀ (rp : List (String × List (String × Participant))) (qs : List (String × Obj)),
    (∀ p ∈ rp, mapHas p.2 sid = false) → disconnectScan sid rp qs = (rp, qs, []) := by
  intro rp
  induction rp with
  | nil => intro qs _; rfl
  | cons p rest ih =>
    intro qs h
    obtain ⟨roomId, pm⟩ := p
    have h0 : mapHas pm sid = false := h (roomId, pm) (by simp)
    rw [disconnectScan_cons_not_has h0, ih qs fun q hq => h q (List.mem_cons_of_mem _ hq)]

/-! ### Unfolding the handlers -/

theorem handleJoin_invalid {roomId? userId? : Option String}
    (st : ServerState) (sid : String) (userName? : Option String) (now : Nat)
    (h : (isFalsy roomId? || isFalsy userId?) = true) :
    handleJoin st sid roomId? userId? userName? now =
      (st, [⟨Target.sock sid, OutEvent.errorMsg "Room ID and User ID are required"⟩]) := by
  simp [handleJoin, h]

theorem handleJoin_valid {roomId userId : String} (st : ServerState)
    (sid : String) (userName? : Option String) (now : Nat)
    (hr : roomId ≠ "") (hu : userId ≠ "") :
    handleJoin st sid (some roomId) (some userId) userName? now =
      (⟨st.quizSessions,
        mapSet (joinRp0 st roomId) roomId (joinPm1 st sid roomId userId userName? now),
        mapSet st.socketRooms sid [roomId]⟩,
       [⟨Target.room roomId,
          OutEvent.participantsUpdate
            ((joinPm1 st sid roomId userId userName? now).map Prod.snd)
            ((joinPm1 st sid roomId userId userName? now).map Prod.snd).length⟩,
        ⟨Target.sock sid,
          OutEvent.roomJoined roomId
            ((joinPm1 st sid roomId userId userName? now).map Prod.snd).length
            ((joinPm1 st sid roomId userId userName? now).map Prod.snd)⟩]) := by
  simp [handleJoin, isFalsy, hr, hu]

theorem handleStart_valid {roomId : String} (st : ServerState) (sid : String)
    (quizData : Obj) (now : Nat) (hr : roomId ≠ "") :
    handleStart st sid (some roomId) quizData now =
      ({ st with quizSessions := mapSet st.quizSessions roomId (mkSession quizData now) },
       [⟨Target.room roomId, OutEvent.quizStarted roomId (mkSession quizData now)⟩]) := by
  simp [handleStart, isFalsy, hr, mapGet_mapSet_self]

theorem handleNext_none {roomId : String} (st : ServerState) (questionIndex : Int)
    (now : Nat) (h : mapGet st.quizSessions roomId = none) :
    handleNext st roomId questionIndex now =
      (st, [⟨Target.room roomId, OutEvent.questionChanged roomId questionIndex now⟩]) := by
  simp [handleNext, h]

theorem handleNext_some {roomId : String} {s : Obj} (st : ServerState)
    (questionIndex : Int) (now : Nat) (h : mapGet st.quizSessions roomId = some s) :
    handleNext st roomId questionIndex now =
      (⟨mapSet st.quizSessions roomId (mapSet s "currentQuestion" (Value.num questionIndex)),
        st.roomParticipants, st.socketRooms⟩,
       [⟨Target.room roomId, OutEvent.questionChanged roomId questionIndex now⟩]) := by
  simp [handleNext, h]

theorem joinPm0_eq (st : ServerState) (roomId : String) :
    joinPm0 st roomId = (mapGet st.roomParticipants roomId).getD [] := by
  unfold joinPm0 joinRp0
  cases h : mapHas st.roomParticipants roomId
  · have h1 : mapGet st.roomParticipants roomId = none := by
      unfold mapHas at h
      cases h2 : mapGet st.roomParticipants roomId
      · rfl
      · rw [h2] at h; simp at h
    simp [h1, mapGet_mapSet_self]
  · simp

theorem joinRp0_get_ne (st : ServerState) {roomId r : String} (h : r ≠ roomId) :
    mapGet (joinRp0 st roomId) r = mapGet st.roomParticipants r := by
  unfold joinRp0
  cases hh : mapHas st.roomParticipants roomId
  · simp [mapGet_mapSet_ne _ _ h]
  · simp

theorem joinRp0_get_self (st : ServerState) (roomId : String) :
    mapGet (joinRp0 st roomId) roomId =
      some ((mapGet st.roomParticipants roomId).getD []) := by
  unfold joinRp0
  cases h : mapHas st.roomParticipants roomId
  · have h1 : mapGet st.roomParticipants roomId = none := by
      unfold mapHas at h
      cases h2 : mapGet st.roomParticipants roomId
      · rfl
      · rw [h2] at h; simp at h
    simp [h1, mapGet_mapSet_self]
  · have h1 : (mapGet st.roomParticipants roomId).isSome = true := h
    cases h2 : mapGet st.roomParticipants roomId
    · rw [h2] at h1; simp at h1
    · simp [h2]

theorem joinRp0_nodup {st : ServerState} (roomId : String)
    (h : (keysOf st.roomParticipants).Nodup) : (keysOf (joinRp0 st roomId)).Nodup := by
  unfold joinRp0
  cases hh : mapHas st.roomParticipants roomId
  · simpa using nodup_keys_mapSet roomId [] h
  · simpa using h

theorem mem_joinRp0 {st : ServerState} {roomId : String}
    {p : String × List (String × Participant)} (h : p ∈ joinRp0 st roomId) :
    p ∈ st.roomParticipants ∨ p.2 = [] := by
  unfold joinRp0 at h
  by_cases hh : mapHas st.roomParticipants roomId = true
  · rw [if_pos hh] at h
    exact Or.inl h
  · have : mapHas st.roomParticipants roomId = false := by
      cases hhh : mapHas st.roomParticipants roomId
      · rfl
      · exact absurd hhh hh
    rw [if_neg hh] at h
    rcases mem_mapSet h with h1 | h1
    · exact Or.inl h1
    · exact Or.inr (by rw [h1])

theorem isFalsy_false {x : Option String} (h : isFalsy x = false) :
    ∃ s, x = some s ∧ s ≠ "" := by
  cases x with
  | none => simp [isFalsy] at h
  | some s =>
    refine ⟨s, rfl, ?_⟩
    simpa [isFalsy] using h

/-! ### Well-formedness and the socket.io/registry invariant are preserved -/

theorem WF_initState : WF initState :=
  ⟨List.nodup_nil, List.nodup_nil, List.nodup_nil, by intro p h; simp [initState] at h⟩

theorem Inv_initState : Inv initState := by
  intro s rs h
  simp [initState, mapGet] at h

theorem WF_step (st : ServerState) (e : InEvent) (h : WF st) : WF (step st e).1 := by
  cases e with
  | joinRoom sid roomId? userId? userName? now =>
    show WF (handleJoin st sid roomId? userId? userName? now).1
    by_cases hg : (isFalsy roomId? || isFalsy userId?) = true
    · rw [handleJoin_invalid st sid userName? now hg]
      exact h
    · rw [Bool.or_eq_true, not_or, Bool.not_eq_true, Bool.not_eq_true] at hg
      obtain ⟨roomId, rfl, hr⟩ := isFalsy_false hg.1
      obtain ⟨userId, rfl, hu⟩ := isFalsy_false hg.2
      rw [handleJoin_valid st sid userName? now hr hu]
      refine ⟨?_, h.qs, ?_, ?_⟩
      · exact nodup_keys_mapSet _ _ (joinRp0_nodup roomId h.rp)
      · exact nodup_keys_mapSet _ _ h.sr
      · intro p hp
        rcases mem_mapSet hp with h1 | h1
        · rcases mem_joinRp0 h1 with h2 | h2
          · exact h.inner p h2
          · rw [h2]; exact List.nodup_nil
        · rw [h1]
          apply nodup_keys_mapSet
          rw [joinPm0_eq]
          cases h2 : mapGet st.roomParticipants roomId with
          | none => exact List.nodup_nil
          | some pm => exact h.inner (roomId, pm) (mapGet_mem h2)
  | startQuiz sid roomId? quizData now =>
    show WF (handleStart st sid roomId? quizData now).1
    by_cases hg : isFalsy roomId? = true
    · simp only [handleStart, hg, if_true]
      exact h
    · rw [Bool.not_eq_true] at hg
      obtain ⟨roomId, rfl, hr⟩ := isFalsy_false hg
      rw [handleStart_valid st sid quizData now hr]
      exact ⟨h.rp, nodup_keys_mapSet _ _ h.qs, h.sr, h.inner⟩
  | submitAnswer sid r qid ans uid now => exact h
  | nextQuestion sid r qi now =>
    show WF (handleNext st r qi now).1
    cases hg : mapGet st.quizSessions r with
    | none =>
      rw [handleNext_none st qi now hg]
      exact h
    | some s =>
      rw [handleNext_some st qi now hg]
      exact ⟨h.rp, nodup_keys_mapSet _ _ h.qs, h.sr, h.inner⟩
  | endQuiz sid r res now =>
    exact ⟨h.rp, nodup_keys_mapDelete _ h.qs, h.sr, h.inner⟩
  | disconnect sid =>
    show WF (handleDisconnect st sid).1
    refine ⟨?_, ?_, ?_, ?_⟩
    · exact List.Nodup.sublist (disconnectScan_rp_keys_sublist sid _ _) h.rp
    · exact List.Nodup.sublist
        (keysOf_sublist_of_sublist (disconnectScan_qs_sublist sid _ _)) h.qs
    · exact nodup_keys_mapDelete _ h.sr
    · intro p hp
      rcases mem_disconnectScan_rp hp with h1 | ⟨q, hq, rfl⟩
      · exact h.inner p h1
      · exact List.Nodup.sublist
          (keysOf_sublist_of_sublist (mapDelete_sublist q.2 sid)) (h.inner q hq)

theorem Inv_step (st : ServerState) (e : InEvent) (hwf : WF st) (h : Inv st) :
    Inv (step st e).1 := by
  cases e with
  | joinRoom sid roomId? userId? userName? now =>
    show Inv (handleJoin st sid roomId? userId? userName? now).1
    by_cases hg : (isFalsy roomId? || isFalsy userId?) = true
    · rw [handleJoin_invalid st sid userName? now hg]
      exact h
    · rw [Bool.or_eq_true, not_or, Bool.not_eq_true, Bool.not_eq_true] at hg
      obtain ⟨roomId, rfl, hr⟩ := isFalsy_false hg.1
      obtain ⟨userId, rfl, hu⟩ := isFalsy_false hg.2
      rw [handleJoin_valid st sid userName? now hr hu]
      intro s rs hs r hmem
      by_cases hsid : s = sid
      · subst hsid
        rw [mapGet_mapSet_self] at hs
        cases hs
        rcases List.mem_singleton.1 hmem with rfl
        rw [mapGet_mapSet_self]
        exact mapHas_mapSet_self _ _ _
      · rw [mapGet_mapSet_ne _ _ hsid] at hs
        have hold := h s rs hs r hmem
        by_cases hroom : r = roomId
        · subst hroom
          rw [mapGet_mapSet_self]
          have : mapHas (joinPm0 st r) s = true := by
            rw [joinPm0_eq]
            exact hold
          exact mapHas_mapSet_of_has _ _ this
        · rw [mapGet_mapSet_ne _ _ hroom, joinRp0_get_ne st hroom]
          exact hold
  | startQuiz sid roomId? quizData now =>
    show Inv (handleStart st sid roomId? quizData now).1
    by_cases hg : isFalsy roomId? = true
    · simp only [handleStart, hg, if_true]
      exact h
    · rw [Bool.not_eq_true] at hg
      obtain ⟨roomId, rfl, hr⟩ := isFalsy_false hg
      rw [handleStart_valid st sid quizData now hr]
      exact h
  | submitAnswer sid r qid ans uid now => exact h
  | nextQuestion sid r qi now =>
    show Inv (handleNext st r qi now).1
    cases hg : mapGet st.quizSessions r with
    | none =>
      rw [handleNext_none st qi now hg]
      exact h
    | some s =>
      rw [handleNext_some st qi now hg]
      exact h
  | endQuiz sid r res now => exact h
  | disconnect sid =>
    show Inv (handleDisconnect st sid).1
    intro s rs hs r hmem
    have hsid : s ≠ sid := by
      rintro rfl
      rw [show (handleDisconnect st s).1.socketRooms = mapDelete st.socketRooms s from rfl,
        mapGet_mapDelete_self] at hs
      exact Option.noConfusion hs
    rw [show (handleDisconnect st sid).1.socketRooms = mapDelete st.socketRooms sid from rfl,
      mapGet_mapDelete_ne _ hsid] at hs
    have hold := h s rs hs r hmem
    rw [show (handleDisconnect st sid).1.roomParticipants =
        (disconnectScan sid st.roomParticipants st.quizSessions).1 from rfl,
      disconnectScan_rp_get sid r st.roomParticipants st.quizSessions hwf.rp]
    cases hget : mapGet st.roomParticipants r with
    | none =>
      rw [hget] at hold
      simp [mapHas, mapGet] at hold
    | some pm =>
      rw [hget] at hold
      simp only [Option.getD_some] at hold
      cases hhas : mapHas pm sid with
      | false => simpa [hget, hhas] using hold
      | true =>
        by_cases hlen : (mapDelete pm sid).length = 0
        · exfalso
          have hnil : mapDelete pm sid = [] := List.length_eq_zero.1 hlen
          have hallsid := (mapDelete_eq_nil_iff pm sid).1 hnil
          have hsome : ∃ v, mapGet pm s = some v := by
            unfold mapHas at hold
            cases hv : mapGet pm s
            · rw [hv] at hold; simp at hold
            · exact ⟨_, rfl⟩
          obtain ⟨v, hv⟩ := hsome
          exact hsid (hallsid (s, v) (mapGet_mem hv))
        · have : mapHas (mapDelete pm sid) s = true := by
            rw [mapHas_mapDelete_ne pm hsid]
            exact hold
          simpa [hget, hhas, hlen] using this

theorem run_props (es : List InEvent) : WF (run es) ∧ Inv (run es) := by
  suffices hgen : ∀ (l : List InEvent) (st : ServerState), WF st → Inv st →
      WF (l.foldl (fun s e => (step s e).1) st) ∧
        Inv (l.foldl (fun s e => (step s e).1) st) by
    exact hgen es initState WF_initState Inv_initState
  intro l
  induction l with
  | nil => intro st h1 h2; exact ⟨h1, h2⟩
  | cons e rest ih =>
    intro st h1 h2
    exact ih _ (WF_step st e h1) (Inv_step st e h1 h2)

theorem WF_run (es : List InEvent) : WF (run es) := (run_props es).1

theorem Inv_run (es : List InEvent) : Inv (run es) := (run_props es).2

theorem run_append (es : List InEvent) (e : InEvent) :
    run (es ++ [e]) = (step (run es) e).1 := by
  simp [run, List.foldl_append]

/-! ### The registry participant-key list, step by step -/

theorem roomKeys_step (st : ServerState) (e : InEvent) (R : String) (hwf : WF st) :
    roomKeys (step st e).1 R = specKeysStep R (roomKeys st R) e := by
  cases e with
  | joinRoom sid roomId? userId? userName? now =>
    by_cases hg : (isFalsy roomId? || isFalsy userId?) = true
    · have hv : validJoin roomId? userId? = false := by simp [validJoin, hg]
      show roomKeys (handleJoin st sid roomId? userId? userName? now).1 R = _
      rw [handleJoin_invalid st sid userName? now hg]
      simp [specKeysStep, hv]
    · have hg2 := hg
      rw [Bool.or_eq_true, not_or, Bool.not_eq_true, Bool.not_eq_true] at hg2
      obtain ⟨roomId, rfl, hr⟩ := isFalsy_false hg2.1
      obtain ⟨userId, rfl, hu⟩ := isFalsy_false hg2.2
      have hv : validJoin (some roomId) (some userId) = true := by
        simp [validJoin, isFalsy, hr, hu]
      show roomKeys (handleJoin st sid (some roomId) (some userId) userName? now).1 R = _
      rw [handleJoin_valid st sid userName? now hr hu]
      have hks : roomKeys st roomId = keysOf (joinPm0 st roomId) := by
        rw [roomKeys, joinPm0_eq]
      by_cases hR : roomId = R
      · subst hR
        simp only [roomKeys]
        rw [mapGet_mapSet_self]
        simp only [Option.getD_some, joinPm1, specKeysStep]
        rw [if_pos ⟨hv, trivial⟩,
          show (mapGet st.roomParticipants roomId).getD [] = joinPm0 st roomId from
            (joinPm0_eq st roomId).symm]
        cases hhas : mapHas (joinPm0 st roomId) sid with
        | true =>
          rw [keys_mapSet_of_has _ hhas, if_pos ((mapHas_iff_mem_keys _ _).1 hhas)]
        | false =>
          have hnmem : sid ∉ keysOf (joinPm0 st roomId) := fun hmem => by
            rw [(mapHas_iff_mem_keys _ _).2 hmem] at hhas
            exact Bool.noConfusion hhas
          rw [keys_mapSet_of_not_has _ hhas, if_neg hnmem]
      · simp only [roomKeys, specKeysStep]
        rw [mapGet_mapSet_ne _ _ (fun hh => hR hh.symm),
          joinRp0_get_ne st (fun hh => hR hh.symm),
          if_neg (fun hc => hR hc.2)]
  | startQuiz sid roomId? quizData now =>
    show roomKeys (handleStart st sid roomId? quizData now).1 R = _
    by_cases hg : isFalsy roomId? = true
    · simp only [handleStart, hg, if_true]
      rfl
    · rw [Bool.not_eq_true] at hg
      obtain ⟨roomId, rfl, hr⟩ := isFalsy_false hg
      rw [handleStart_valid st sid quizData now hr]
      rfl
  | submitAnswer sid r qid ans uid now => rfl
  | nextQuestion sid r qi now =>
    show roomKeys (handleNext st r qi now).1 R = _
    cases hg : mapGet st.quizSessions r with
    | none => rw [handleNext_none st qi now hg]; rfl
    | some s => rw [handleNext_some st qi now hg]; rfl
  | endQuiz sid r res now => rfl
  | disconnect sid =>
    show roomKeys (handleDisconnect st sid).1 R = _
    simp only [roomKeys, specKeysStep]
    rw [show (handleDisconnect st sid).1.roomParticipants =
        (disconnectScan sid st.roomParticipants st.quizSessions).1 from rfl,
      disconnectScan_rp_get sid R st.roomParticipants st.quizSessions hwf.rp]
    cases hget : mapGet st.roomParticipants R with
    | none => simp [keysOf, removeAll]
    | some pm =>
      cases hhas : mapHas pm sid with
      | false =>
        have hnmem : sid ∉ keysOf pm := fun hmem => by
          rw [(mapHas_iff_mem_keys _ _).2 hmem] at hhas
          exact Bool.noConfusion hhas
        simp [hget, hhas, removeAll_of_not_mem hnmem]
      | true =>
        by_cases hlen : (mapDelete pm sid).length = 0
        · have hnil : mapDelete pm sid = [] := List.length_eq_zero.1 hlen
          have hallsid := (mapDelete_eq_nil_iff pm sid).1 hnil
          have hall2 : ∀ x ∈ keysOf pm, x = sid := by
            intro x hx
            rw [← mapHas_iff_mem_keys] at hx
            unfold mapHas at hx
            cases hv : mapGet pm x with
            | none => rw [hv] at hx; simp at hx
            | some v => exact hallsid (x, v) (mapGet_mem hv)
          simp [hget, hhas, hlen, keysOf, removeAll_eq_nil hall2]
        · simp [hget, hhas, hlen, keys_mapDelete]

theorem roomKeys_run (es : List InEvent) (R : String) :
    roomKeys (run es) R = specKeys es R := by
  suffices hgen : ∀ (l : List InEvent) (st : ServerState), WF st →
      roomKeys (l.foldl (fun s e => (step s e).1) st) R =
        l.foldl (specKeysStep R) (roomKeys st R) by
    have h0 : roomKeys initState R = [] := rfl
    have h1 := hgen es initState WF_initState
    rw [run, specKeys, ← h0]
    exact h1
  intro l
  induction l with
  | nil => intro st hwf; rfl
  | cons e rest ih =>
    intro st hwf
    rw [List.foldl_cons, List.foldl_cons, ih (step st e).1 (WF_step st e hwf),
      roomKeys_step st e R hwf]

/-! ### Claim C7: join validation -/

/-- C7: a join event whose payload is missing roomId or missing userId makes
the dispatcher emit the validation error to the sending connection only and
leaves the entire server state — Room Registry, Session Store and socket.io
rooms — unchanged. -/
theorem C7_join_validation_no_mutation (st : ServerState) (sid : String)
    (roomId? userId? userName? : Option String) (now : Nat)
    (h : roomId? = none ∨ userId? = none) :
    step st (InEvent.joinRoom sid roomId? userId? userName? now) =
      (st, [⟨Target.sock sid, OutEvent.errorMsg "Room ID and User ID are required"⟩]) := by
  have hg : (isFalsy roomId? || isFalsy userId?) = true := by
    rcases h with rfl | rfl <;> simp [isFalsy]
  exact handleJoin_invalid st sid userName? now hg

/-- C7 witness: a join with no roomId at a concrete state errors to the sender
and mutates nothing. -/
theorem C7_join_validation_no_mutation_witness :
    ((none : Option String) = none ∨ (some "u1" : Option String) = none) ∧
    step initState (InEvent.joinRoom "c1" none (some "u1") none 0) =
      (initState,
       [⟨Target.sock "c1", OutEvent.errorMsg "Room ID and User ID are required"⟩]) :=
  ⟨Or.inl rfl,
   C7_join_validation_no_mutation initState "c1" none (some "u1") none 0 (Or.inl rfl)⟩

/-! ### Claim C5: start semantics -/

/-- C5: a start event with a present roomId creates or overwrites the session
for that room with currentQuestion 0 and startedAt now, merging the payload's
other fields, touches no other session and neither registry, never fails (no
error even when a session already exists), and broadcasts the full stored
session object to the room. -/
theorem C5_start_semantics (st : ServerState) (sid roomId : String)
    (quizData : Obj) (now : Nat) (hr : roomId ≠ "") :
    mapGet (step st (InEvent.startQuiz sid (some roomId) quizData now)).1.quizSessions
        roomId = some (mkSession quizData now)
    ∧ mapGet (mkSession quizData now) "currentQuestion" = some (Value.num 0)
    ∧ mapGet (mkSession quizData now) "startedAt" = some (Value.time now)
    ∧ (∀ k, k ≠ "currentQuestion" → k ≠ "startedAt" →
        mapGet (mkSession quizData now) k = mapGet quizData k)
    ∧ (∀ r, r ≠ roomId →
        mapGet (step st (InEvent.startQuiz sid (some roomId) quizData now)).1.quizSessions r =
          mapGet st.quizSessions r)
    ∧ (step st (InEvent.startQuiz sid (some roomId) quizData now)).1.roomParticipants =
        st.roomParticipants
    ∧ (step st (InEvent.startQuiz sid (some roomId) quizData now)).1.socketRooms =
        st.socketRooms
    ∧ (step st (InEvent.startQuiz sid (some roomId) quizData now)).2 =
        [⟨Target.room roomId, OutEvent.quizStarted roomId (mkSession quizData now)⟩] := by
  have hstep : step st (InEvent.startQuiz sid (some roomId) quizData now) =
      (⟨mapSet st.quizSessions roomId (mkSession quizData now),
        st.roomParticipants, st.socketRooms⟩,
       [⟨Target.room roomId, OutEvent.quizStarted roomId (mkSession quizData now)⟩]) := by
    show handleStart st sid (some roomId) quizData now = _
    rw [handleStart_valid st sid quizData now hr]
  simp only [hstep]
  refine ⟨mapGet_mapSet_self _ _ _, mapGet_mapSet_self _ _ _, ?_, ?_, ?_, trivial, trivial, trivial⟩
  · rw [mkSession, mapGet_mapSet_ne _ _ (by decide)]
    exact mapGet_mapSet_self _ _ _
  · intro k hk1 hk2
    rw [mkSession, mapGet_mapSet_ne _ _ hk1, mapGet_mapSet_ne _ _ hk2]
  · intro r hrr
    exact mapGet_mapSet_ne _ _ hrr

/-- C5 witness: restarting the quiz in a room that already has a session
stores the new merged session. -/
theorem C5_start_semantics_witness :
    ("R1" : String) ≠ "" ∧
    mapGet (step (run [InEvent.startQuiz "c1" (some "R1") [] 0])
        (InEvent.startQuiz "c1" (some "R1") [("title", Value.str "T")] 5)).1.quizSessions
      "R1" = some (mkSession [("title", Value.str "T")] 5) :=
  ⟨by decide,
   (C5_start_semantics (run [InEvent.startQuiz "c1" (some "R1") [] 0]) "c1" "R1"
      [("title", Value.str "T")] 5 (by decide)).1⟩

/-! ### Claim C9: start overrides reserved fields -/

/-- C9: the session stored by a start event always carries currentQuestion 0
and startedAt equal to the server timestamp, for every quizData payload —
including payloads that themselves bind the keys currentQuestion or
startedAt. -/
theorem C9_start_reserved_fields_override (st : ServerState) (sid roomId : String)
    (quizData : Obj) (now : Nat) (hr : roomId ≠ "") :
    ∃ s, mapGet (step st (InEvent.startQuiz sid (some roomId) quizData now)).1.quizSessions
        roomId = some s
      ∧ mapGet s "currentQuestion" = some (Value.num 0)
      ∧ mapGet s "startedAt" = some (Value.time now) := by
  refine ⟨mkSession quizData now, ?_, mapGet_mapSet_self _ _ _, ?_⟩
  · have hstep := handleStart_valid st sid quizData now hr
    show mapGet (handleStart st sid (some roomId) quizData now).1.quizSessions roomId = _
    simp only [hstep]
    exact mapGet_mapSet_self _ _ _
  · rw [mkSession, mapGet_mapSet_ne _ _ (by decide)]
    exact mapGet_mapSet_self _ _ _

/-- C9 witness: a payload that tries to smuggle currentQuestion 7 and
startedAt 99 still produces a session with currentQuestion 0 and startedAt 5. -/
theorem C9_start_reserved_fields_override_witness :
    ("R1" : String) ≠ "" ∧
    ∃ s, mapGet (step initState (InEvent.startQuiz "c1" (some "R1")
        [("currentQuestion", Value.num 7), ("startedAt", Value.time 99)] 5)).1.quizSessions
      "R1" = some s
      ∧ mapGet s "currentQuestion" = some (Value.num 0)
      ∧ mapGet s "startedAt" = some (Value.time 5) :=
  ⟨by decide,
   C9_start_reserved_fields_override initState "c1" "R1"
     [("currentQuestion", Value.num 7), ("startedAt", Value.time 99)] 5 (by decide)⟩

/-! ### Claim C6: nextQuestion no-op semantics -/

/-- C6: a nextQuestion event sets currentQuestion on the room's session when
one exists, leaves the Session Store untouched (no error) when none exists,
broadcasts question-changed to the room in both cases, never creates or
deletes a session entry, and does not touch the Room Registry; in particular
after start immediately followed by end, a nextQuestion event still
broadcasts question-changed but the room has no session. -/
theorem C6_nextQuestion_semantics (st : ServerState) (sid roomId : String)
    (qi : Int) (now : Nat) :
    (step st (InEvent.nextQuestion sid roomId qi now)).2 =
        [⟨Target.room roomId, OutEvent.questionChanged roomId qi now⟩]
    ∧ (mapGet st.quizSessions roomId = none →
        (step st (InEvent.nextQuestion sid roomId qi now)).1 = st)
    ∧ (∀ s, mapGet st.quizSessions roomId = some s →
        mapGet (step st (InEvent.nextQuestion sid roomId qi now)).1.quizSessions roomId =
          some (mapSet s "currentQuestion" (Value.num qi)))
    ∧ (∀ r, mapHas (step st (InEvent.nextQuestion sid roomId qi now)).1.quizSessions r =
        mapHas st.quizSessions r)
    ∧ (step st (InEvent.nextQuestion sid roomId qi now)).1.roomParticipants =
        st.roomParticipants
    ∧ (∀ (quizData : Obj) (res : Option Value) (t1 t2 : Nat), roomId ≠ "" →
        mapGet (step (step (step st (InEvent.startQuiz sid (some roomId) quizData t1)).1
            (InEvent.endQuiz sid roomId res t2)).1
            (InEvent.nextQuestion sid roomId qi now)).1.quizSessions roomId = none
        ∧ (step (step (step st (InEvent.startQuiz sid (some roomId) quizData t1)).1
            (InEvent.endQuiz sid roomId res t2)).1
            (InEvent.nextQuestion sid roomId qi now)).2 =
          [⟨Target.room roomId, OutEvent.questionChanged roomId qi now⟩]) := by
  have hscen : ∀ (quizData : Obj) (res : Option Value) (t1 t2 : Nat), roomId ≠ "" →
      mapGet (step (step (step st (InEvent.startQuiz sid (some roomId) quizData t1)).1
          (InEvent.endQuiz sid roomId res t2)).1
          (InEvent.nextQuestion sid roomId qi now)).1.quizSessions roomId = none
      ∧ (step (step (step st (InEvent.startQuiz sid (some roomId) quizData t1)).1
          (InEvent.endQuiz sid roomId res t2)).1
          (InEvent.nextQuestion sid roomId qi now)).2 =
        [⟨Target.room roomId, OutEvent.questionChanged roomId qi now⟩] := by
    intro quizData res t1 t2 hne
    have h1 : step st (InEvent.startQuiz sid (some roomId) quizData t1) =
        (⟨mapSet st.quizSessions roomId (mkSession quizData t1),
          st.roomParticipants, st.socketRooms⟩,
         [⟨Target.room roomId, OutEvent.quizStarted roomId (mkSession quizData t1)⟩]) := by
      show handleStart st sid (some roomId) quizData t1 = _
      rw [handleStart_valid st sid quizData t1 hne]
    have h2 : mapGet (step (step st (InEvent.startQuiz sid (some roomId) quizData t1)).1
        (InEvent.endQuiz sid roomId res t2)).1.quizSessions roomId = none := by
      simp only [h1]
      show mapGet (mapDelete (mapSet st.quizSessions roomId (mkSession quizData t1)) roomId)
        roomId = none
      exact mapGet_mapDelete_self _ _
    constructor
    · rw [show (step (step (step st (InEvent.startQuiz sid (some roomId) quizData t1)).1
          (InEvent.endQuiz sid roomId res t2)).1
          (InEvent.nextQuestion sid roomId qi now)).1 =
            (step (step st (InEvent.startQuiz sid (some roomId) quizData t1)).1
              (InEvent.endQuiz sid roomId res t2)).1 from by
        show (handleNext _ roomId qi now).1 = _
        rw [handleNext_none _ qi now h2]]
      exact h2
    · show (handleNext _ roomId qi now).2 = _
      rw [handleNext_none _ qi now h2]
  cases hg : mapGet st.quizSessions roomId with
  | none =>
    have hstep : step st (InEvent.nextQuestion sid roomId qi now) =
        (st, [⟨Target.room roomId, OutEvent.questionChanged roomId qi now⟩]) := by
      show handleNext st roomId qi now = _
      rw [handleNext_none st qi now hg]
    refine ⟨by rw [hstep], fun _ => by rw [hstep], ?_, ?_, by rw [hstep], hscen⟩
    · intro s hs
      exact Option.noConfusion hs
    · intro r
      rw [hstep]
  | some s0 =>
    have hstep : step st (InEvent.nextQuestion sid roomId qi now) =
        (⟨mapSet st.quizSessions roomId (mapSet s0 "currentQuestion" (Value.num qi)),
          st.roomParticipants, st.socketRooms⟩,
         [⟨Target.room roomId, OutEvent.questionChanged roomId qi now⟩]) := by
      show handleNext st roomId qi now = _
      rw [handleNext_some st qi now hg]
    refine ⟨by rw [hstep], ?_, ?_, ?_, by simp only [hstep], hscen⟩
    · intro hn
      exact Option.noConfusion hn
    · intro s hs
      cases hs
      simp only [hstep]
      exact mapGet_mapSet_self _ _ _
    · intro r
      simp only [hstep]
      by_cases hr : r = roomId
      · subst hr
        rw [mapHas_mapSet_self]
        unfold mapHas
        rw [hg]
        rfl
      · unfold mapHas
        rw [mapGet_mapSet_ne _ _ hr]

/-- C6 witness: start then end then nextQuestion, from the empty state — the
question-changed broadcast fires and the room still has no session. -/
theorem C6_nextQuestion_semantics_witness :
    ("R1" : String) ≠ "" ∧
    mapGet (step (step (step initState
        (InEvent.startQuiz "c1" (some "R1") [("title", Value.str "T")] 1)).1
        (InEvent.endQuiz "c1" "R1" none 2)).1
        (InEvent.nextQuestion "c1" "R1" 3 4)).1.quizSessions "R1" = none :=
  ⟨by decide,
   ((C6_nextQuestion_semantics initState "c1" "R1" 3 4).2.2.2.2.2
      [("title", Value.str "T")] none 1 2 (by decide)).1⟩

/-! ### Claim C10: re-join updates in place -/

/-- C10: when a connection already in room R's participant map joins R again,
its record is updated in place: the room's key list (and so both the
participant count and the connection's position in the insertion order) is
unchanged. -/
theorem C10_rejoin_updates_in_place (st : ServerState) (sid roomId userId : String)
    (userName? : Option String) (now : Nat) (hr : roomId ≠ "") (hu : userId ≠ "")
    (h : mapHas ((mapGet st.roomParticipants roomId).getD []) sid = true) :
    keysOf ((mapGet (step st
        (InEvent.joinRoom sid (some roomId) (some userId) userName? now)).1.roomParticipants
        roomId).getD []) = keysOf ((mapGet st.roomParticipants roomId).getD [])
    ∧ ((mapGet (step st
        (InEvent.joinRoom sid (some roomId) (some userId) userName? now)).1.roomParticipants
        roomId).getD []).length = ((mapGet st.roomParticipants roomId).getD []).length := by
  have hstep := handleJoin_valid st sid userName? now hr hu
  have hpm : joinPm0 st roomId = (mapGet st.roomParticipants roomId).getD [] :=
    joinPm0_eq st roomId
  have hhas : mapHas (joinPm0 st roomId) sid = true := by rw [hpm]; exact h
  constructor
  · show keysOf ((mapGet (handleJoin st sid (some roomId) (some userId) userName? now).1.roomParticipants
        roomId).getD []) = _
    simp only [hstep]
    rw [mapGet_mapSet_self]
    simp only [Option.getD_some, joinPm1]
    rw [keys_mapSet_of_has _ hhas, hpm]
  · show ((mapGet (handleJoin st sid (some roomId) (some userId) userName? now).1.roomParticipants
        roomId).getD []).length = _
    simp only [hstep]
    rw [mapGet_mapSet_self]
    simp only [Option.getD_some, joinPm1]
    rw [length_mapSet_of_has _ hhas, hpm]

/-- C10 witness: c1 joined first of two participants; re-joining leaves the
key order (and the count) exactly as before. -/
theorem C10_rejoin_updates_in_place_witness :
    (("R1" : String) ≠ "" ∧ ("u9" : String) ≠ "" ∧
      mapHas ((mapGet (run [InEvent.joinRoom "c1" (some "R1") (some "u1") none 0,
        InEvent.joinRoom "c2" (some "R1") (some "u2") none 1]).roomParticipants
        "R1").getD []) "c1" = true) ∧
    keysOf ((mapGet (step (run [InEvent.joinRoom "c1" (some "R1") (some "u1") none 0,
        InEvent.joinRoom "c2" (some "R1") (some "u2") none 1])
        (InEvent.joinRoom "c1" (some "R1") (some "u9") none 2)).1.roomParticipants
        "R1").getD []) =
      keysOf ((mapGet (run [InEvent.joinRoom "c1" (some "R1") (some "u1") none 0,
        InEvent.joinRoom "c2" (some "R1") (some "u2") none 1]).roomParticipants
        "R1").getD []) :=
  ⟨⟨by decide, by decide, by decide⟩,
   (C10_rejoin_updates_in_place
      (run [InEvent.joinRoom "c1" (some "R1") (some "u1") none 0,
        InEvent.joinRoom "c2" (some "R1") (some "u2") none 1])
      "c1" "R1" "u9" none 2 (by decide) (by decide) (by decide)).1⟩

/-! ### Claim C8: disconnect of a non-member is a no-op -/

/-- C8: disconnecting a connection that is in no room's participant map
leaves the Room Registry and the Session Store unchanged and emits no
broadcast at all. -/
theorem C8_disconnect_nonmember_noop (st : ServerState) (c : String)
    (h : inNoRoom st c = true) :
    (step st (InEvent.disconnect c)).1.roomParticipants = st.roomParticipants
    ∧ (step st (InEvent.disconnect c)).1.quizSessions = st.quizSessions
    ∧ (step st (InEvent.disconnect c)).2 = [] := by
  have hall : ∀ p ∈ st.roomParticipants, mapHas p.2 c = false := by
    intro p hp
    have h1 := List.all_eq_true.1 h p hp
    simpa using h1
  have hscan := disconnectScan_frame c st.roomParticipants st.quizSessions hall
  refine ⟨?_, ?_, ?_⟩
  · show (handleDisconnect st c).1.roomParticipants = _
    simp only [handleDisconnect, hscan]
  · show (handleDisconnect st c).1.quizSessions = _
    simp only [handleDisconnect, hscan]
  · show (handleDisconnect st c).2 = _
    simp only [handleDisconnect, hscan]

/-- C8 witness: disconnecting an unknown connection from a populated state
leaves the registry untouched. -/
theorem C8_disconnect_nonmember_noop_witness :
    inNoRoom (run [InEvent.joinRoom "c1" (some "R1") (some "u1") none 0,
      InEvent.startQuiz "c1" (some "R1") [] 1]) "zz" = true ∧
    (step (run [InEvent.joinRoom "c1" (some "R1") (some "u1") none 0,
      InEvent.startQuiz "c1" (some "R1") [] 1]) (InEvent.disconnect "zz")).2 = [] :=
  ⟨by decide,
   (C8_disconnect_nonmember_noop
      (run [InEvent.joinRoom "c1" (some "R1") (some "u1") none 0,
        InEvent.startQuiz "c1" (some "R1") [] 1]) "zz" (by decide)).2.2⟩

/-! ### Claim C1: single-room membership (refuted and amended) -/

/-- C1 counterexample: c1 joins room A, then room B.  Contrary to the claim,
c1 is NOT removed from A's Room Registry participant map (it ends up listed
in both A and B), and the join-B event emits no broadcast to room A at all —
only the participants-update to B and the room-joined confirmation. -/
theorem C1_counterexample :
    mapHas ((mapGet (run [InEvent.joinRoom "c1" (some "A") (some "u1") none 0,
        InEvent.joinRoom "c1" (some "B") (some "u1") none 1]).roomParticipants
        "A").getD []) "c1" = true
    ∧ mapHas ((mapGet (run [InEvent.joinRoom "c1" (some "A") (some "u1") none 0,
        InEvent.joinRoom "c1" (some "B") (some "u1") none 1]).roomParticipants
        "B").getD []) "c1" = true
    ∧ (step (run [InEvent.joinRoom "c1" (some "A") (some "u1") none 0])
        (InEvent.joinRoom "c1" (some "B") (some "u1") none 1)).2 =
      [⟨Target.room "B", OutEvent.participantsUpdate [⟨"u1", "User u1", "c1", 1⟩] 1⟩,
       ⟨Target.sock "c1", OutEvent.roomJoined "B" 1 [⟨"u1", "User u1", "c1", 1⟩]⟩] := by
  decide

/-- C1 amended: a valid join of room B sets the connection's socket.io
membership to exactly B (so only at the broadcast-delivery layer does it
leave its previous room), while every other room's Room Registry entry —
including a previous room A that still lists the connection — is left
untouched, and no event of the join is emitted toward room A. -/
theorem C1_join_leaves_old_registry_entry (st : ServerState)
    (sid roomId userId A : String) (userName? : Option String) (now : Nat)
    (hr : roomId ≠ "") (hu : userId ≠ "") (hA : A ≠ roomId) :
    mapGet (step st
        (InEvent.joinRoom sid (some roomId) (some userId) userName? now)).1.socketRooms
        sid = some [roomId]
    ∧ mapGet (step st
        (InEvent.joinRoom sid (some roomId) (some userId) userName? now)).1.roomParticipants
        A = mapGet st.roomParticipants A
    ∧ ∀ e ∈ (step st
        (InEvent.joinRoom sid (some roomId) (some userId) userName? now)).2,
        targetRoom e.target ≠ some A := by
  have hstep := handleJoin_valid st sid userName? now hr hu
  refine ⟨?_, ?_, ?_⟩
  · show mapGet (handleJoin st sid (some roomId) (some userId) userName? now).1.socketRooms
        sid = _
    simp only [hstep]
    exact mapGet_mapSet_self _ _ _
  · show mapGet (handleJoin st sid (some roomId) (some userId) userName? now).1.roomParticipants
        A = _
    simp only [hstep]
    rw [mapGet_mapSet_ne _ _ hA, joinRp0_get_ne st hA]
  · show ∀ e ∈ (handleJoin st sid (some roomId) (some userId) userName? now).2, _
    simp only [hstep]
    intro e he
    rcases List.mem_cons.1 he with rfl | he2
    · simp only [targetRoom]
      intro hc
      exact hA (Option.some.inj hc).symm
    · rcases List.mem_singleton.1 he2 with rfl
      simp [targetRoom]

/-- C1 amended, witness: after c1 joined A, joining B leaves A's entry as it
was and puts c1's socket.io membership at exactly B. -/
theorem C1_join_leaves_old_registry_entry_witness :
    (("B" : String) ≠ "" ∧ ("u1" : String) ≠ "" ∧ ("A" : String) ≠ "B") ∧
    mapGet (step (run [InEvent.joinRoom "c1" (some "A") (some "u1") none 0])
        (InEvent.joinRoom "c1" (some "B") (some "u1") none 1)).1.socketRooms "c1" =
      some ["B"] :=
  ⟨⟨by decide, by decide, by decide⟩,
   (C1_join_leaves_old_registry_entry
      (run [InEvent.joinRoom "c1" (some "A") (some "u1") none 0])
      "c1" "B" "u1" "A" none 1 (by decide) (by decide) (by decide)).1⟩

/-! ### Claim C2: session-implies-room invariant (refuted and amended) -/

/-- C2 counterexample: a single start event from the empty initial state
creates a Session Store entry for R1 while the Room Registry is empty, so a
session can exist for a roomId with no (non-empty) room entry. -/
theorem C2_counterexample :
    mapHas (run [InEvent.startQuiz "c1" (some "R1") [] 0]).quizSessions "R1" = true
    ∧ (run [InEvent.startQuiz "c1" (some "R1") [] 0]).roomParticipants = [] := by
  decide

/-- C2 amended: in every reachable state, any event that removes a room's
entry from the Room Registry leaves no Session Store entry for that roomId in
the same step (the disconnect handler deletes room and session together; no
other event removes a room entry). -/
theorem C2_room_deletion_deletes_session (es : List InEvent) (e : InEvent)
    (r : String) (h1 : mapHas (run es).roomParticipants r = true)
    (h2 : mapHas (step (run es) e).1.roomParticipants r = false) :
    mapHas (step (run es) e).1.quizSessions r = false := by
  cases e with
  | joinRoom sid roomId? userId? userName? now =>
    exfalso
    by_cases hg : (isFalsy roomId? || isFalsy userId?) = true
    · rw [show (step (run es) (InEvent.joinRoom sid roomId? userId? userName? now)).1 =
          run es from by
        show (handleJoin (run es) sid roomId? userId? userName? now).1 = _
        rw [handleJoin_invalid (run es) sid userName? now hg]] at h2
      rw [h1] at h2
      exact Bool.noConfusion h2
    · rw [Bool.or_eq_true, not_or, Bool.not_eq_true, Bool.not_eq_true] at hg
      obtain ⟨roomId, rfl, hrr⟩ := isFalsy_false hg.1
      obtain ⟨userId, rfl, huu⟩ := isFalsy_false hg.2
      have hstep := handleJoin_valid (run es) sid userName? now hrr huu
      have h3 : mapHas (joinRp0 (run es) roomId) r = true := by
        unfold joinRp0
        cases hh : mapHas (run es).roomParticipants roomId
        · rw [if_neg (by simp)]
          exact mapHas_mapSet_of_has _ _ h1
        · rw [if_pos rfl]
          exact h1
      have h4 : mapHas (step (run es)
          (InEvent.joinRoom sid (some roomId) (some userId) userName? now)).1.roomParticipants
          r = true := by
        show mapHas (handleJoin (run es) sid (some roomId) (some userId)
          userName? now).1.roomParticipants r = true
        simp only [hstep]
        exact mapHas_mapSet_of_has _ _ h3
      rw [h4] at h2
      exact Bool.noConfusion h2
  | startQuiz sid roomId? quizData now =>
    exfalso
    by_cases hg : isFalsy roomId? = true
    · rw [show (step (run es) (InEvent.startQuiz sid roomId? quizData now)).1 = run es from by
        show (handleStart (run es) sid roomId? quizData now).1 = _
        simp only [handleStart, hg, if_true]] at h2
      rw [h1] at h2
      exact Bool.noConfusion h2
    · rw [Bool.not_eq_true] at hg
      obtain ⟨roomId, rfl, hrr⟩ := isFalsy_false hg
      rw [show (step (run es)
          (InEvent.startQuiz sid (some roomId) quizData now)).1.roomParticipants =
            (run es).roomParticipants from by
        show (handleStart (run es) sid (some roomId) quizData now).1.roomParticipants = _
        rw [handleStart_valid (run es) sid quizData now hrr]] at h2
      rw [h1] at h2
      exact Bool.noConfusion h2
  | submitAnswer sid r2 qid ans uid now =>
    exfalso
    rw [show (step (run es) (InEvent.submitAnswer sid r2 qid ans uid now)).1 = run es from
      rfl] at h2
    rw [h1] at h2
    exact Bool.noConfusion h2
  | nextQuestion sid r2 qi now =>
    exfalso
    have h3 : (step (run es) (InEvent.nextQuestion sid r2 qi now)).1.roomParticipants
        = (run es).roomParticipants := by
      show (handleNext (run es) r2 qi now).1.roomParticipants = _
      cases hgq : mapGet (run es).quizSessions r2 with
      | none => rw [handleNext_none (run es) qi now hgq]
      | some s => rw [handleNext_some (run es) qi now hgq]
    rw [h3, h1] at h2
    exact Bool.noConfusion h2
  | endQuiz sid r2 res now =>
    exfalso
    rw [show (step (run es) (InEvent.endQuiz sid r2 res now)).1.roomParticipants =
        (run es).roomParticipants from rfl, h1] at h2
    exact Bool.noConfusion h2
  | disconnect sid =>
    have hwf := WF_run es
    obtain ⟨pm, hpm⟩ : ∃ pm, mapGet (run es).roomParticipants r = some pm := by
      unfold mapHas at h1
      cases hv : mapGet (run es).roomParticipants r
      · rw [hv] at h1
        exact Bool.noConfusion h1
      · exact ⟨_, rfl⟩
    have h2a : mapHas (disconnectScan sid (run es).roomParticipants
        (run es).quizSessions).1 r = false := h2
    unfold mapHas at h2a
    rw [disconnectScan_rp_get sid r _ _ hwf.rp, hpm] at h2a
    have h2b : (if mapHas pm sid = true then
        (if (mapDelete pm sid).length = 0 then none else some (mapDelete pm sid))
        else some pm).isSome = false := h2a
    cases hhas : mapHas pm sid with
    | false =>
      exfalso
      rw [hhas] at h2b
      simp at h2b
    | true =>
      by_cases hlen : (mapDelete pm sid).length = 0
      · show mapHas (disconnectScan sid (run es).roomParticipants
            (run es).quizSessions).2.1 r = false
        unfold mapHas
        rw [disconnectScan_qs_deleted sid r _ _ pm hpm hhas hlen]
        rfl
      · exfalso
        rw [hhas] at h2b
        simp [hlen] at h2b

/-- C2 amended, witness: the only participant of R1 disconnecting removes R1
from the registry and deletes its session in the same step. -/
theorem C2_room_deletion_deletes_session_witness :
    (mapHas (run [InEvent.joinRoom "c1" (some "R1") (some "u1") none 0,
        InEvent.startQuiz "c1" (some "R1") [] 1]).roomParticipants "R1" = true
      ∧ mapHas (step (run [InEvent.joinRoom "c1" (some "R1") (some "u1") none 0,
        InEvent.startQuiz "c1" (some "R1") [] 1])
          (InEvent.disconnect "c1")).1.roomParticipants "R1" = false) ∧
    mapHas (step (run [InEvent.joinRoom "c1" (some "R1") (some "u1") none 0,
      InEvent.startQuiz "c1" (some "R1") [] 1])
        (InEvent.disconnect "c1")).1.quizSessions "R1" = false :=
  ⟨⟨by decide, by decide⟩,
   C2_room_deletion_deletes_session
     [InEvent.joinRoom "c1" (some "R1") (some "u1") none 0,
      InEvent.startQuiz "c1" (some "R1") [] 1]
     (InEvent.disconnect "c1") "R1" (by decide) (by decide)⟩

/-! ### Claim C3: disconnect broadcast scoping (refuted and amended) -/

/-- C3 counterexample: when the last (only) participant of R1 disconnects,
the handler still issues a participants-update broadcast for R1 (with the
empty list and count 0) — the claim that a broadcast is issued only for
still-non-empty rooms is false at the emit level. -/
theorem C3_counterexample :
    (step (run [InEvent.joinRoom "c1" (some "R1") (some "u1") none 0])
      (InEvent.disconnect "c1")).2 =
      [⟨Target.room "R1", OutEvent.participantsUpdate [] 0⟩] := by
  decide

/-- C3 amended: over reachable states, a disconnect removes the connection
from every room's participant map; a participants-update broadcast carrying
the updated list and count is issued for exactly the affected rooms —
including a room emptied by the removal — but the broadcast issued for an
emptied room is delivered to no connection, because no socket.io room member
remains for it. -/
theorem C3_disconnect_broadcast_scope (es : List InEvent) (c : String) :
    (∀ r, mapHas ((mapGet (step (run es)
        (InEvent.disconnect c)).1.roomParticipants r).getD []) c = false)
    ∧ (∀ r pm, mapGet (run es).roomParticipants r = some pm → mapHas pm c = true →
        (⟨Target.room r, OutEvent.participantsUpdate ((mapDelete pm c).map Prod.snd)
            ((mapDelete pm c).map Prod.snd).length⟩ : Emit) ∈
          (step (run es) (InEvent.disconnect c)).2)
    ∧ (∀ e ∈ (step (run es) (InEvent.disconnect c)).2, ∃ r pm,
        mapGet (run es).roomParticipants r = some pm ∧ mapHas pm c = true ∧
        e = ⟨Target.room r, OutEvent.participantsUpdate ((mapDelete pm c).map Prod.snd)
            ((mapDelete pm c).map Prod.snd).length⟩)
    ∧ (∀ r pm, mapGet (run es).roomParticipants r = some pm → mapHas pm c = true →
        (mapDelete pm c).length = 0 →
        ∀ s rs, mapGet (step (run es) (InEvent.disconnect c)).1.socketRooms s = some rs →
          r ∉ rs) := by
  have hwf := WF_run es
  have hinv := Inv_run es
  refine ⟨?_, ?_, ?_, ?_⟩
  · intro r
    show mapHas ((mapGet (disconnectScan c (run es).roomParticipants
        (run es).quizSessions).1 r).getD []) c = false
    rw [disconnectScan_rp_get c r _ _ hwf.rp]
    cases hget : mapGet (run es).roomParticipants r with
    | none => rfl
    | some pm =>
      have hred : (match some pm with
          | none => none
          | some pm =>
            if mapHas pm c = true then
              (if (mapDelete pm c).length = 0 then none else some (mapDelete pm c))
            else some pm) = (if mapHas pm c = true then
              (if (mapDelete pm c).length = 0 then none else some (mapDelete pm c))
            else some pm) := rfl
      rw [hred]
      cases hhas : mapHas pm c with
      | false =>
        rw [if_neg (by simp [hhas])]
        exact hhas
      | true =>
        rw [if_pos rfl]
        by_cases hlen : (mapDelete pm c).length = 0
        · rw [if_pos hlen]
          rfl
        · rw [if_neg hlen]
          exact mapHas_mapDelete_self pm c
  · intro r pm hget hhas
    show _ ∈ (disconnectScan c (run es).roomParticipants (run es).quizSessions).2.2
    rw [disconnectScan_emits c _ _]
    refine List.mem_filterMap.2 ⟨(r, pm), mapGet_mem hget, ?_⟩
    rw [if_pos hhas]
  · intro e he
    have he2 : e ∈ (disconnectScan c (run es).roomParticipants
        (run es).quizSessions).2.2 := he
    rw [disconnectScan_emits c _ _] at he2
    obtain ⟨p, hp, hfp⟩ := List.mem_filterMap.1 he2
    by_cases hhas : mapHas p.2 c = true
    · rw [if_pos hhas] at hfp
      exact ⟨p.1, p.2, mapGet_of_mem_nodup hwf.rp hp, hhas, (Option.some.inj hfp).symm⟩
    · rw [if_neg hhas] at hfp
      exact Option.noConfusion hfp
  · intro r pm hget hhas hlen s rs hs hmem
    have hs2 : mapGet (mapDelete (run es).socketRooms c) s = some rs := hs
    have hsc : s ≠ c := by
      rintro rfl
      rw [mapGet_mapDelete_self] at hs2
      exact Option.noConfusion hs2
    rw [mapGet_mapDelete_ne _ hsc] at hs2
    have hold := hinv s rs hs2 r hmem
    rw [hget] at hold
    simp only [Option.getD_some] at hold
    have hnil : mapDelete pm c = [] := List.length_eq_zero.1 hlen
    have hallsid := (mapDelete_eq_nil_iff pm c).1 hnil
    obtain ⟨v, hv⟩ : ∃ v, mapGet pm s = some v := by
      unfold mapHas at hold
      cases hv : mapGet pm s
      · rw [hv] at hold
        exact Bool.noConfusion hold
      · exact ⟨_, rfl⟩
    exact hsc (hallsid (s, v) (mapGet_mem hv))

/-- C3 amended, witness: with two participants in R1, c1's disconnect issues
a participants-update for R1 carrying the one remaining participant. -/
theorem C3_disconnect_broadcast_scope_witness :
    (mapGet (run [InEvent.joinRoom "c1" (some "R1") (some "u1") none 0,
        InEvent.joinRoom "c2" (some "R1") (some "u2") none 1]).roomParticipants "R1" =
      some [("c1", ⟨"u1", "User u1", "c1", 0⟩), ("c2", ⟨"u2", "User u2", "c2", 1⟩)]
      ∧ mapHas [(("c1" : String), (⟨"u1", "User u1", "c1", 0⟩ : Participant)),
          ("c2", ⟨"u2", "User u2", "c2", 1⟩)] "c1" = true) ∧
    (⟨Target.room "R1", OutEvent.participantsUpdate
        ((mapDelete [(("c1" : String), (⟨"u1", "User u1", "c1", 0⟩ : Participant)),
          ("c2", ⟨"u2", "User u2", "c2", 1⟩)] "c1").map Prod.snd)
        ((mapDelete [(("c1" : String), (⟨"u1", "User u1", "c1", 0⟩ : Participant)),
          ("c2", ⟨"u2", "User u2", "c2", 1⟩)] "c1").map Prod.snd).length⟩ : Emit) ∈
      (step (run [InEvent.joinRoom "c1" (some "R1") (some "u1") none 0,
        InEvent.joinRoom "c2" (some "R1") (some "u2") none 1])
        (InEvent.disconnect "c1")).2 :=
  ⟨⟨by decide, by decide⟩,
   (C3_disconnect_broadcast_scope
      [InEvent.joinRoom "c1" (some "R1") (some "u1") none 0,
       InEvent.joinRoom "c2" (some "R1") (some "u2") none 1] "c1").2.1
     "R1" [("c1", ⟨"u1", "User u1", "c1", 0⟩), ("c2", ⟨"u2", "User u2", "c2", 1⟩)]
     (by decide) (by decide)⟩

/-! ### Claim C4: participant-list exactness and order (refuted and amended) -/

/-- C4 counterexample: c9 joins room D and then room E, implicitly leaving D
(its socket.io membership is exactly E afterwards); yet D's Room Registry
participant list still contains c9, so the list is not exactly "joined and
not since left or disconnected".  Moreover, after a disconnect and a re-join,
a connection is listed after connections it first joined before (d1 joined F
before d2, but ends up listed after it), so the order is not first-ever-join
order either. -/
theorem C4_counterexample :
    roomKeys (run [InEvent.joinRoom "c9" (some "D") (some "u9") none 0,
      InEvent.joinRoom "c9" (some "E") (some "u9") none 1]) "D" = ["c9"]
    ∧ mapGet (run [InEvent.joinRoom "c9" (some "D") (some "u9") none 0,
      InEvent.joinRoom "c9" (some "E") (some "u9") none 1]).socketRooms "c9" = some ["E"]
    ∧ roomKeys (run [InEvent.joinRoom "d1" (some "F") (some "v1") none 0,
      InEvent.joinRoom "d2" (some "F") (some "v2") none 1,
      InEvent.disconnect "d1",
      InEvent.joinRoom "d1" (some "F") (some "v1") none 2]) "F" = ["d2", "d1"] := by
  decide

/-- C4 amended: for every event trace and every roomId, the Room Registry's
participant list for that room holds exactly the connections whose last valid
join targeted that room since they last disconnected — a later join to a
different room does not remove them — in the order of their first join since
last absence, a re-join while present updating the record in place. -/
theorem C4_participant_list_exact (es : List InEvent) (R : String) :
    roomKeys (run es) R = specKeys es R :=
  roomKeys_run es R

end QuizServer
